import Mathlib

/-! Verification of the ring-buffer byte stream in `src/byte_stream.rs`.

The Rust struct `ByteStream` owns a `Vec<u8>` of length `capacity` together
with a head index and a used-byte count.  Bytes are modelled as `Nat`: the
code never computes on byte values, it only moves them.  The two fallible
points of the Rust code are modelled by `Option`:

* both `read` and `write` evaluate `… % self.capacity`, which panics
  (remainder by zero) when `capacity = 0`;
* in `write`, the high-segment copy is
  `self.buffer[..write_size_hi].copy_from_slice(&buf[write_size_lo..])`,
  and `copy_from_slice` panics unless the source slice length
  `buf.len() - write_size_lo` equals the destination length `write_size_hi`.

A panic is modelled as the operation returning `none`.
-/

structure ByteStream where
  capacity : Nat
  head_index : Nat
  used_capacity : Nat
  buffer : List Nat
deriving Repr, DecidableEq

/-- Rust constructor `ByteStream::new`: `vec![0; capacity]`, head 0, used 0. -/
def ByteStream.new (capacity : Nat) : ByteStream :=
  { capacity := capacity
    head_index := 0
    used_capacity := 0
    buffer := List.replicate capacity 0 }

/-- Model of `dst[start..start + src.length].copy_from_slice(&src)`:
overwrite `src.length` elements of `dst` starting at `start`. -/
def setSlice (dst : List Nat) (start : Nat) (src : List Nat) : List Nat :=
  dst.take start ++ src ++ dst.drop (start + src.length)

/-- Rust method `<impl Read for ByteStream>::read`.  Copies the oldest
`min buf.len() used_capacity` bytes into the front of `buf` (one or two
segments), decreases `used_capacity`, advances `head_index` modulo
`capacity`.  The final `% self.capacity` panics when `capacity = 0`. -/
def ByteStream.read (s : ByteStream) (buf : List Nat) :
    Option (Nat × List Nat × ByteStream) :=
  let read_size := min buf.length s.used_capacity
  let read_size_lo := min read_size (s.capacity - s.head_index)
  let buf1 := if 0 < read_size_lo then
      setSlice buf 0 ((s.buffer.drop s.head_index).take read_size_lo)
    else buf
  let read_size_hi := read_size - read_size_lo
  let buf2 := if 0 < read_size_hi then
      setSlice buf1 read_size_lo (s.buffer.take read_size_hi)
    else buf1
  if s.capacity = 0 then none
  else some (read_size, buf2,
    { s with used_capacity := s.used_capacity - read_size
             head_index := (s.head_index + read_size) % s.capacity })

/-- Rust method `<impl Write for ByteStream>::write`.  Copies
`min buf.len() (capacity - used_capacity)` bytes from `buf` into the free
region starting at the tail (one or two segments) and increases
`used_capacity`.  `(head_index + used_capacity) % capacity` panics when
`capacity = 0`; the high-segment `copy_from_slice(&buf[write_size_lo..])`
panics unless `buf.length - write_size_lo = write_size_hi`. -/
def ByteStream.write (s : ByteStream) (buf : List Nat) :
    Option (Nat × ByteStream) :=
  let capacity_left := s.capacity - s.used_capacity
  let write_size := min buf.length capacity_left
  if s.capacity = 0 then none
  else
    let tail_index := (s.head_index + s.used_capacity) % s.capacity
    let write_size_lo := min write_size (s.capacity - tail_index)
    let buffer1 := if 0 < write_size_lo then
        setSlice s.buffer tail_index (buf.take write_size_lo)
      else s.buffer
    let write_size_hi := write_size - write_size_lo
    if 0 < write_size_hi then
      if buf.length - write_size_lo = write_size_hi then
        some (write_size,
          { s with buffer := setSlice buffer1 0 (buf.drop write_size_lo)
                   used_capacity := s.used_capacity + write_size })
      else none
    else
      some (write_size,
        { s with buffer := buffer1
                 used_capacity := s.used_capacity + write_size })

/-- Rust method `<impl Write for ByteStream>::flush`: `Ok(())`, no state change. -/
def ByteStream.flush (s : ByteStream) : Option (Unit × ByteStream) :=
  some ((), s)

/-- Representation invariant: the backing store has exactly `capacity`
elements, at most `capacity` bytes are used, and (for positive capacity)
the head lies inside the store. -/
def WF (s : ByteStream) : Prop :=
  s.buffer.length = s.capacity ∧ s.used_capacity ≤ s.capacity ∧
    (0 < s.capacity → s.head_index < s.capacity)

instance (s : ByteStream) : Decidable (WF s) := by
  unfold WF; infer_instance

/-- The spec-level invariant of §3 of the design document: `used ≤ capacity`
and, when capacity is positive, `head < capacity`. -/
def SpecInv (s : ByteStream) : Prop :=
  s.used_capacity ≤ s.capacity ∧
    (0 < s.capacity → s.head_index < s.capacity)

instance (s : ByteStream) : Decidable (SpecInv s) := by
  unfold SpecInv; infer_instance

/-- The circular slice of `used_capacity` bytes starting at `head_index`:
the FIFO content of the buffer, oldest byte first. -/
def contents (s : ByteStream) : List Nat :=
  ((s.buffer.drop s.head_index) ++ s.buffer).take s.used_capacity

/-- One benchmark-style step sequence: a list of write/read calls. -/
inductive Op where
  | write (data : List Nat)
  | read (len : Nat)
deriving Repr

/-- Run a sequence of operations, accumulating the accepted prefix of every
write and the filled prefix of every read sink (reads use a fresh
zero-filled sink of the requested length).  `none` if any call panics. -/
def runOps : ByteStream → List Op → Option (List Nat × List Nat × ByteStream)
  | s, [] => some ([], [], s)
  | s, Op.write data :: ops =>
    (s.write data).bind fun p =>
      (runOps p.2 ops).bind fun q =>
        some (data.take p.1 ++ q.1, q.2.1, q.2.2)
  | s, Op.read len :: ops =>
    (s.read (List.replicate len 0)).bind fun p =>
      (runOps p.2.2 ops).bind fun q =>
        some (q.1, p.2.1.take p.1 ++ q.2.1, q.2.2)
theorem write_aux_nowrap (B D : List Nat) (cap head used w : Nat)
    (hB : B.length = cap) (hD : D.length = w) (hh : head < cap)
    (hfit : head + used + w ≤ cap) :
    ((setSlice B (head + used) D).drop head ++
      setSlice B (head + used) D).take (used + w) =
    (B.drop head ++ B).take used ++ D := by
  apply List.ext_getElem?
  intro i
  simp only [setSlice, hD, List.getElem?_append, List.getElem?_take,
    List.getElem?_drop, List.length_append, List.length_take, List.length_drop,
    hB]
  split_ifs <;>
    first
      | rfl
      | omega
      | (apply congrArg; omega)
      | (exact List.getElem?_eq_none (by omega))
      | (exact (List.getElem?_eq_none (by omega)).symm)

theorem write_aux_occwrap (B D : List Nat) (cap head used w : Nat)
    (hB : B.length = cap) (hD : D.length = w) (hh : head < cap)
    (hocc : cap ≤ head + used) (hu : used ≤ cap) (hfit : used + w ≤ cap) :
    ((setSlice B (head + used - cap) D).drop head ++
      setSlice B (head + used - cap) D).take (used + w) =
    (B.drop head ++ B).take used ++ D := by
  apply List.ext_getElem?
  intro i
  simp only [setSlice, hD, List.getElem?_append, List.getElem?_take,
    List.getElem?_drop, List.length_append, List.length_take, List.length_drop,
    hB]
  split_ifs <;>
    first
      | rfl
      | omega
      | (apply congrArg; omega)
      | (exact List.getElem?_eq_none (by omega))
      | (exact (List.getElem?_eq_none (by omega)).symm)

set_option maxHeartbeats 1600000 in
theorem write_aux_freewrap (B D E : List Nat) (cap head used w lo hi : Nat)
    (hB : B.length = cap) (hD : D.length = lo) (hE : E.length = hi)
    (hh : head < cap) (hlo : head + used + lo = cap) (hw : w = lo + hi)
    (hfit : used + w ≤ cap) :
    ((setSlice (setSlice B (head + used) D) 0 E).drop head ++
      setSlice (setSlice B (head + used) D) 0 E).take (used + w) =
    (B.drop head ++ B).take used ++ (D ++ E) := by
  have h1 : setSlice B (head + used) D = B.take (head + used) ++ D := by
    simp only [setSlice, hD, hlo, ← hB, List.drop_length, List.append_nil]
  rw [h1]
  apply List.ext_getElem?
  intro i
  simp only [setSlice, hD, hE, List.getElem?_append, List.getElem?_take,
    List.getElem?_drop, List.length_append, List.length_take, List.length_drop,
    hB]
  split_ifs <;>
    first
      | rfl
      | omega
      | (apply congrArg; omega)
      | (exact List.getElem?_eq_none (by omega))
      | (exact (List.getElem?_eq_none (by omega)).symm)

theorem read_aux_contents (B : List Nat) (cap head used r h2 : Nat)
    (hB : B.length = cap) (hh : head < cap) (hu : used ≤ cap) (hr : r ≤ used)
    (hmod : head + r = h2 ∨ head + r = h2 + cap) (hh2 : h2 < cap) :
    (B.drop h2 ++ B).take (used - r) = ((B.drop head ++ B).take used).drop r := by
  apply List.ext_getElem?
  intro i
  simp only [List.getElem?_append, List.getElem?_take, List.getElem?_drop,
    List.length_append, List.length_take, List.length_drop, hB]
  rcases hmod with h | h <;>
    split_ifs <;>
      first
        | rfl
        | omega
        | (apply congrArg; omega)
        | (exact List.getElem?_eq_none (by omega))
        | (exact (List.getElem?_eq_none (by omega)).symm)

theorem read_aux_out_nowrap_take (B sink : List Nat) (cap head used r : Nat)
    (hB : B.length = cap) (hh : head < cap) (hu : used ≤ cap) (hr : r ≤ used)
    (hrc : head + r ≤ cap) (hrs : r ≤ sink.length) :
    (setSlice sink 0 ((B.drop head).take r)).take r =
      ((B.drop head ++ B).take used).take r := by
  apply List.ext_getElem?
  intro i
  simp only [setSlice, List.getElem?_append, List.getElem?_take,
    List.getElem?_drop, List.length_append, List.length_take, List.length_drop,
    hB]
  split_ifs <;>
    first
      | rfl
      | omega
      | (apply congrArg; omega)
      | (exact List.getElem?_eq_none (by omega))
      | (exact (List.getElem?_eq_none (by omega)).symm)

theorem read_aux_out_nowrap_drop (B sink : List Nat) (cap head r : Nat)
    (hB : B.length = cap) (hh : head < cap) (hrc : head + r ≤ cap)
    (hrs : r ≤ sink.length) :
    (setSlice sink 0 ((B.drop head).take r)).drop r = sink.drop r := by
  apply List.ext_getElem?
  intro i
  simp only [setSlice, List.getElem?_append, List.getElem?_take,
    List.getElem?_drop, List.length_append, List.length_take, List.length_drop,
    hB]
  split_ifs <;>
    first
      | rfl
      | omega
      | (apply congrArg; omega)
      | (exact List.getElem?_eq_none (by omega))
      | (exact (List.getElem?_eq_none (by omega)).symm)

theorem read_aux_out_wrap_take (B sink : List Nat) (cap head used r lo hi : Nat)
    (hB : B.length = cap) (hh : head < cap) (hu : used ≤ cap) (hr : r ≤ used)
    (hlo : head + lo = cap) (hw : r = lo + hi) (hrs : r ≤ sink.length) :
    (setSlice (setSlice sink 0 ((B.drop head).take lo)) lo (B.take hi)).take r =
      ((B.drop head ++ B).take used).take r := by
  apply List.ext_getElem?
  intro i
  simp only [setSlice, List.getElem?_append, List.getElem?_take,
    List.getElem?_drop, List.length_append, List.length_take, List.length_drop,
    hB]
  split_ifs <;>
    first
      | rfl
      | omega
      | (apply congrArg; omega)
      | (exact List.getElem?_eq_none (by omega))
      | (exact (List.getElem?_eq_none (by omega)).symm)

theorem read_aux_out_wrap_drop (B sink : List Nat) (cap head r lo hi : Nat)
    (hB : B.length = cap) (hh : head < cap) (hlo : head + lo = cap)
    (hw : r = lo + hi) (hhi : hi ≤ cap) (hrs : r ≤ sink.length) :
    (setSlice (setSlice sink 0 ((B.drop head).take lo)) lo (B.take hi)).drop r =
      sink.drop r := by
  apply List.ext_getElem?
  intro i
  simp only [setSlice, List.getElem?_append, List.getElem?_take,
    List.getElem?_drop, List.length_append, List.length_take, List.length_drop,
    hB]
  split_ifs <;>
    first
      | rfl
      | omega
      | (apply congrArg; omega)
      | (exact List.getElem?_eq_none (by omega))
      | (exact (List.getElem?_eq_none (by omega)).symm)

theorem write_spec (cap head used : Nat) (B data : List Nat) (w : Nat)
    (s' : ByteStream)
    (hB : B.length = cap) (hu : used ≤ cap) (hh : head < cap)
    (h : ByteStream.write ⟨cap, head, used, B⟩ data = some (w, s')) :
    w = min data.length (cap - used) ∧ s'.capacity = cap ∧
    s'.head_index = head ∧ s'.used_capacity = used + w ∧
    s'.buffer.length = cap ∧
    contents s' = contents ⟨cap, head, used, B⟩ ++ data.take w := by
  have hcap : ¬ (cap = 0) := by omega
  simp only [ByteStream.write] at h
  rw [if_neg hcap] at h
  set W := min data.length (cap - used) with hWdef
  have hsplit : (head + used) % cap = head + used ∧ head + used < cap ∨
      (head + used) % cap = head + used - cap ∧ cap ≤ head + used := by
    rcases Nat.lt_or_ge (head + used) cap with hc | hc
    · exact Or.inl ⟨Nat.mod_eq_of_lt hc, hc⟩
    · refine Or.inr ⟨?_, hc⟩
      rw [Nat.mod_eq_sub_mod hc, Nat.mod_eq_of_lt (by omega)]
  rcases hsplit with ⟨hT, hc⟩ | ⟨hT, hc⟩ <;> rw [hT] at h
  · -- occupied region does not wrap: tail = head + used
    set LO := min W (cap - (head + used)) with hLOdef
    set HI := W - LO with hHIdef
    by_cases hHIpos : 0 < HI
    · -- free region wraps: two-segment copy, succeeds only if data.length = W
      rw [if_pos hHIpos] at h
      by_cases hcond : data.length - LO = HI
      · rw [if_pos hcond] at h
        simp only [Option.some.injEq, Prod.mk.injEq] at h
        obtain ⟨rfl, rfl⟩ := h
        refine ⟨rfl, rfl, rfl, rfl, ?_, ?_⟩
        · rw [if_pos (show 0 < LO by omega)]
          simp only [setSlice, List.length_append, List.length_take,
            List.length_drop, hB]
          omega
        · rw [if_pos (show 0 < LO by omega)]
          simp only [contents]
          have hsp : data.take W = data.take LO ++ data.drop LO := by
            rw [List.take_of_length_le (by omega), List.take_append_drop]
          rw [hsp]
          exact write_aux_freewrap B (data.take LO) (data.drop LO) cap head used
            W LO HI hB (by rw [List.length_take]; omega)
            (by rw [List.length_drop]; omega) hh (by omega) (by omega) (by omega)
      · rw [if_neg hcond] at h
        exact absurd h (by simp)
    · -- single-segment copy into [tail, tail + W)
      rw [if_neg hHIpos] at h
      simp only [Option.some.injEq, Prod.mk.injEq] at h
      obtain ⟨rfl, rfl⟩ := h
      refine ⟨rfl, rfl, rfl, rfl, ?_, ?_⟩
      · by_cases hLOpos : 0 < LO
        · rw [if_pos hLOpos]
          simp only [setSlice, List.length_append, List.length_take,
            List.length_drop, hB]
          omega
        · rw [if_neg hLOpos]
          exact hB
      · by_cases hLOpos : 0 < LO
        · rw [if_pos hLOpos]
          simp only [contents]
          have hLOW : LO = W := by omega
          rw [hLOW]
          exact write_aux_nowrap B (data.take W) cap head used W hB
            (by rw [List.length_take]; omega) hh (by omega)
        · rw [if_neg hLOpos]
          simp only [contents]
          have hW0 : W = 0 := by omega
          rw [hW0]
          simp
  · -- occupied region wraps: tail = head + used - cap, free region contiguous
    set LO := min W (cap - (head + used - cap)) with hLOdef
    set HI := W - LO with hHIdef
    by_cases hHIpos : 0 < HI
    · exfalso; omega
    · rw [if_neg hHIpos] at h
      simp only [Option.some.injEq, Prod.mk.injEq] at h
      obtain ⟨rfl, rfl⟩ := h
      refine ⟨rfl, rfl, rfl, rfl, ?_, ?_⟩
      · by_cases hLOpos : 0 < LO
        · rw [if_pos hLOpos]
          simp only [setSlice, List.length_append, List.length_take,
            List.length_drop, hB]
          omega
        · rw [if_neg hLOpos]
          exact hB
      · by_cases hLOpos : 0 < LO
        · rw [if_pos hLOpos]
          simp only [contents]
          have hLOW : LO = W := by omega
          rw [hLOW]
          exact write_aux_occwrap B (data.take W) cap head used W hB
            (by rw [List.length_take]; omega) hh hc hu (by omega)
        · rw [if_neg hLOpos]
          simp only [contents]
          have hW0 : W = 0 := by omega
          rw [hW0]
          simp

theorem read_spec (cap head used : Nat) (B sink : List Nat) (r : Nat)
    (out : List Nat) (s' : ByteStream)
    (hB : B.length = cap) (hu : used ≤ cap) (hh : head < cap)
    (h : ByteStream.read ⟨cap, head, used, B⟩ sink = some (r, out, s')) :
    r = min sink.length used ∧ s'.capacity = cap ∧ s'.buffer = B ∧
    s'.head_index = (head + r) % cap ∧ s'.used_capacity = used - r ∧
    out.take r = (contents ⟨cap, head, used, B⟩).take r ∧
    out.drop r = sink.drop r ∧
    contents s' = (contents ⟨cap, head, used, B⟩).drop r := by
  have hcap : ¬ (cap = 0) := by omega
  simp only [ByteStream.read] at h
  rw [if_neg hcap] at h
  set R := min sink.length used with hRdef
  set LO := min R (cap - head) with hLOdef
  set HI := R - LO with hHIdef
  simp only [Option.some.injEq, Prod.mk.injEq] at h
  obtain ⟨rfl, rfl, rfl⟩ := h
  refine ⟨rfl, rfl, rfl, rfl, rfl, ?_, ?_, ?_⟩
  · -- the filled prefix of the sink is the oldest R buffered bytes
    by_cases hHIpos : 0 < HI
    · rw [if_pos hHIpos, if_pos (show 0 < LO by omega)]
      simp only [contents]
      exact read_aux_out_wrap_take B sink cap head used R LO HI hB hh hu
        (by omega) (by omega) (by omega) (by omega)
    · rw [if_neg hHIpos]
      by_cases hLOpos : 0 < LO
      · rw [if_pos hLOpos]
        simp only [contents]
        have hLOR : LO = R := by omega
        rw [hLOR]
        exact read_aux_out_nowrap_take B sink cap head used R hB hh hu
          (by omega) (by omega) (by omega)
      · rw [if_neg hLOpos]
        have hR0 : R = 0 := by omega
        rw [hR0]
        simp
  · -- the rest of the sink is untouched
    by_cases hHIpos : 0 < HI
    · rw [if_pos hHIpos, if_pos (show 0 < LO by omega)]
      exact read_aux_out_wrap_drop B sink cap head R LO HI hB hh
        (by omega) (by omega) (by omega) (by omega)
    · rw [if_neg hHIpos]
      by_cases hLOpos : 0 < LO
      · rw [if_pos hLOpos]
        have hLOR : LO = R := by omega
        rw [hLOR]
        exact read_aux_out_nowrap_drop B sink cap head R hB hh
          (by omega) (by omega)
      · rw [if_neg hLOpos]
  · -- remaining contents: everything after the first R bytes
    simp only [contents]
    have hmod : head + R = (head + R) % cap ∨ head + R = (head + R) % cap + cap := by
      rcases Nat.lt_or_ge (head + R) cap with hc | hc
      · exact Or.inl (Nat.mod_eq_of_lt hc).symm
      · refine Or.inr ?_
        rw [Nat.mod_eq_sub_mod hc, Nat.mod_eq_of_lt (by omega)]
        omega
    exact read_aux_contents B cap head used R ((head + R) % cap) hB hh hu
      (by omega) hmod (Nat.mod_lt _ (by omega))

/-! ### Field effects of successful calls (no well-formedness needed) -/

theorem write_some_fields (s : ByteStream) (data : List Nat) (w : Nat)
    (s' : ByteStream) (h : s.write data = some (w, s')) :
    w = min data.length (s.capacity - s.used_capacity) ∧
    s'.capacity = s.capacity ∧ s'.head_index = s.head_index ∧
    s'.used_capacity = s.used_capacity + w := by
  simp only [ByteStream.write] at h
  split at h
  · exact absurd h (by simp)
  · split at h
    · split at h
      · simp only [Option.some.injEq, Prod.mk.injEq] at h
        obtain ⟨rfl, rfl⟩ := h
        exact ⟨rfl, rfl, rfl, rfl⟩
      · exact absurd h (by simp)
    · simp only [Option.some.injEq, Prod.mk.injEq] at h
      obtain ⟨rfl, rfl⟩ := h
      exact ⟨rfl, rfl, rfl, rfl⟩

theorem read_some_fields (s : ByteStream) (sink : List Nat) (r : Nat)
    (out : List Nat) (s' : ByteStream) (h : s.read sink = some (r, out, s')) :
    r = min sink.length s.used_capacity ∧
    s'.capacity = s.capacity ∧ s'.buffer = s.buffer ∧
    s'.head_index = (s.head_index + r) % s.capacity ∧
    s'.used_capacity = s.used_capacity - r := by
  simp only [ByteStream.read] at h
  split at h
  · exact absurd h (by simp)
  · simp only [Option.some.injEq, Prod.mk.injEq] at h
    obtain ⟨rfl, rfl, rfl⟩ := h
    exact ⟨rfl, rfl, rfl, rfl, rfl⟩

theorem write_cap_zero (s : ByteStream) (data : List Nat)
    (h0 : s.capacity = 0) : s.write data = none := by
  simp only [ByteStream.write, h0]
  rfl

theorem read_cap_zero (s : ByteStream) (sink : List Nat)
    (h0 : s.capacity = 0) : s.read sink = none := by
  simp only [ByteStream.read, h0]
  rfl

theorem write_fits (s : ByteStream) (data : List Nat)
    (hpos : 0 < s.capacity) (hfit : data.length ≤ s.capacity - s.used_capacity) :
    ∃ s', s.write data = some (data.length, s') := by
  simp only [ByteStream.write]
  rw [if_neg (by omega : ¬ s.capacity = 0), Nat.min_eq_left hfit]
  split_ifs <;> first | exact ⟨_, rfl⟩ | omega

theorem read_total (s : ByteStream) (sink : List Nat) (hpos : 0 < s.capacity) :
    ∃ out s', s.read sink = some (min sink.length s.used_capacity, out, s') := by
  simp only [ByteStream.read]
  rw [if_neg (by omega : ¬ s.capacity = 0)]
  exact ⟨_, _, rfl⟩

theorem write_spec_wf (s : ByteStream) (data : List Nat) (w : Nat)
    (s' : ByteStream) (hWF : WF s) (h : s.write data = some (w, s')) :
    WF s' ∧ w = min data.length (s.capacity - s.used_capacity) ∧
    s'.capacity = s.capacity ∧ s'.head_index = s.head_index ∧
    s'.used_capacity = s.used_capacity + w ∧
    contents s' = contents s ++ data.take w := by
  have hpos : 0 < s.capacity := by
    by_contra hc
    rw [write_cap_zero s data (by omega)] at h
    exact absurd h (by simp)
  obtain ⟨cap, head, used, B⟩ := s
  have hB : B.length = cap := hWF.1
  have hu : used ≤ cap := hWF.2.1
  have hh : head < cap := hWF.2.2 hpos
  obtain ⟨hw, hcap2, hhd, hus, hlen, hcont⟩ :=
    write_spec cap head used B data w s' hB hu hh h
  refine ⟨⟨?_, ?_, ?_⟩, hw, hcap2, hhd, hus, hcont⟩
  · rw [hlen, hcap2]
  · rw [hus, hcap2]
    have := Nat.min_le_right data.length (cap - used)
    omega
  · intro _
    rw [hhd, hcap2]
    exact hh

theorem read_spec_wf (s : ByteStream) (sink : List Nat) (r : Nat)
    (out : List Nat) (s' : ByteStream) (hWF : WF s)
    (h : s.read sink = some (r, out, s')) :
    WF s' ∧ r = min sink.length s.used_capacity ∧
    s'.capacity = s.capacity ∧ s'.buffer = s.buffer ∧
    s'.head_index = (s.head_index + r) % s.capacity ∧
    s'.used_capacity = s.used_capacity - r ∧
    out.take r = (contents s).take r ∧
    out.drop r = sink.drop r ∧
    contents s' = (contents s).drop r := by
  have hpos : 0 < s.capacity := by
    by_contra hc
    rw [read_cap_zero s sink (by omega)] at h
    exact absurd h (by simp)
  obtain ⟨cap, head, used, B⟩ := s
  have hB : B.length = cap := hWF.1
  have hu : used ≤ cap := hWF.2.1
  have hh : head < cap := hWF.2.2 hpos
  obtain ⟨hr, hcap2, hbuf, hhd, hus, htake, hdrop, hcont⟩ :=
    read_spec cap head used B sink r out s' hB hu hh h
  refine ⟨⟨?_, ?_, ?_⟩, hr, hcap2, hbuf, hhd, hus, htake, hdrop, hcont⟩
  · rw [hbuf, hcap2, hB]
  · rw [hus, hcap2]
    omega
  · intro _
    rw [hhd, hcap2]
    exact Nat.mod_lt _ hpos

theorem contents_length (s : ByteStream) (hWF : WF s) :
    (contents s).length = s.used_capacity := by
  have hB : s.buffer.length = s.capacity := hWF.1
  have hu : s.used_capacity ≤ s.capacity := hWF.2.1
  simp only [contents, List.length_take, List.length_append, List.length_drop, hB]
  omega

theorem runOps_conserves (ops : List Op) (s : ByteStream) (ws rs : List Nat)
    (s' : ByteStream) (hWF : WF s) (h : runOps s ops = some (ws, rs, s')) :
    WF s' ∧ rs ++ contents s' = contents s ++ ws := by
  induction ops generalizing s ws rs with
  | nil =>
    simp only [runOps, Option.some.injEq, Prod.mk.injEq] at h
    obtain ⟨rfl, rfl, rfl⟩ := h
    exact ⟨hWF, by simp⟩
  | cons op ops ih =>
    cases op with
    | write data =>
      simp only [runOps] at h
      rcases hw : s.write data with _ | ⟨w, s₁⟩
      · rw [hw] at h
        simp at h
      · rw [hw] at h
        simp only [Option.some_bind] at h
        rcases hrun : runOps s₁ ops with _ | ⟨⟨ws₂, rs₂, s₂⟩⟩
        · rw [hrun] at h
          simp at h
        · rw [hrun] at h
          simp only [Option.some_bind, Option.some.injEq, Prod.mk.injEq] at h
          obtain ⟨rfl, rfl, rfl⟩ := h
          obtain ⟨hWF₁, _, _, _, _, hcont⟩ := write_spec_wf s data w s₁ hWF hw
          obtain ⟨hWF₂, hc₂⟩ := ih s₁ ws₂ rs₂ hWF₁ hrun
          refine ⟨hWF₂, ?_⟩
          rw [hc₂, hcont, List.append_assoc]
    | read len =>
      simp only [runOps] at h
      rcases hr : s.read (List.replicate len 0) with _ | ⟨⟨r, out, s₁⟩⟩
      · rw [hr] at h
        simp at h
      · rw [hr] at h
        simp only [Option.some_bind] at h
        rcases hrun : runOps s₁ ops with _ | ⟨⟨ws₂, rs₂, s₂⟩⟩
        · rw [hrun] at h
          simp at h
        · rw [hrun] at h
          simp only [Option.some_bind, Option.some.injEq, Prod.mk.injEq] at h
          obtain ⟨rfl, rfl, rfl⟩ := h
          obtain ⟨hWF₁, hrv, _, _, _, _, htake, _, hcont⟩ :=
            read_spec_wf s (List.replicate len 0) r out s₁ hWF hr
          obtain ⟨hWF₂, hc₂⟩ := ih s₁ ws₂ rs₂ hWF₁ hrun
          refine ⟨hWF₂, ?_⟩
          rw [List.append_assoc, hc₂, hcont, htake, ← List.append_assoc,
            List.take_append_drop]

/-- Claim C1 (code_bug): a write that must truncate (f < n free) while the
stored prefix wraps past the end of the storage panics in Rust (the source
slice of the high-segment copy has the wrong length), instead of returning
f and storing the first f bytes.  State reached from a fresh capacity-8
buffer by writing 6 bytes and reading 4: head 4, used 2, 6 bytes free;
writing 10 bytes then panics. -/
theorem write_truncating_wrap_panics :
    (((ByteStream.new 8).write [1, 2, 3, 4, 5, 6]).bind fun p =>
      (p.2.read [0, 0, 0, 0]).bind fun q =>
        q.2.2.write [11, 12, 13, 14, 15, 16, 17, 18, 19, 20]) = none := rfl

/-- Claim C2 (code_bug): write and read are not total.  A truncated write
whose stored prefix wraps panics (copy_from_slice length mismatch), and
both operations on a capacity-0 buffer panic (remainder by zero). -/
theorem operations_not_total :
    ByteStream.write ⟨4, 2, 1, [0, 0, 0, 0]⟩ [1, 2, 3, 4, 5] = none ∧
    (ByteStream.new 0).read [0, 0] = none := ⟨rfl, rfl⟩

/-- Claim C3, counterexample: on a buffer already holding two bytes
(10 and 11), writing [1, 2] (which fits) and then reading back 2 bytes
yields the two OLD bytes [10, 11], not the written sequence [1, 2]. -/
theorem roundtrip_used_nonzero_counterexample :
    (((⟨8, 0, 2, [10, 11, 0, 0, 0, 0, 0, 0]⟩ : ByteStream).write [1, 2]).bind
        fun p => p.2.read [0, 0]) =
      some (2, [10, 11], ⟨8, 2, 2, [10, 11, 1, 2, 0, 0, 0, 0]⟩) ∧
    ([10, 11] : List Nat) ≠ [1, 2] := ⟨rfl, by decide⟩

/-- Claim C3 (amended): on every well-formed EMPTY buffer of positive
capacity — the head may sit anywhere, i.e. after arbitrarily many wraps —
writing a sequence that fits and then reading back the same number of
bytes yields exactly the written sequence. -/
theorem write_read_roundtrip (s : ByteStream) (data sink : List Nat)
    (hWF : WF s) (hpos : 0 < s.capacity) (hempty : s.used_capacity = 0)
    (hfit : data.length ≤ s.capacity) (hsink : sink.length = data.length) :
    ∃ s₁ s₂, s.write data = some (data.length, s₁) ∧
      s₁.read sink = some (data.length, data, s₂) := by
  obtain ⟨s₁, hw⟩ := write_fits s data hpos (by omega)
  obtain ⟨hWF₁, hwv, hcap₁, hhd₁, hus₁, hcont₁⟩ :=
    write_spec_wf s data data.length s₁ hWF hw
  have hcs : contents s = [] := by
    have hl := contents_length s hWF
    rw [hempty] at hl
    exact List.eq_nil_of_length_eq_zero hl
  have hcont₁' : contents s₁ = data := by
    rw [hcont₁, hcs, List.nil_append, List.take_length]
  have hus₁' : s₁.used_capacity = data.length := by
    rw [hus₁, hempty, Nat.zero_add]
  obtain ⟨out, s₂, hr⟩ := read_total s₁ sink (by rw [hcap₁]; exact hpos)
  have hmin : min sink.length s₁.used_capacity = data.length := by
    rw [hus₁', hsink, Nat.min_self]
  rw [hmin] at hr
  obtain ⟨hWF₂, hrv, hcap₂, hbuf₂, hhd₂, hus₂, htake₂, hdrop₂, hcont₂⟩ :=
    read_spec_wf s₁ sink data.length out s₂ hWF₁ hr
  have hout : out = data := by
    have h1 : out.take data.length = data := by
      rw [htake₂, hcont₁', List.take_length]
    have h2 : out.drop data.length = [] := by
      rw [hdrop₂, ← hsink]
      exact List.drop_length sink
    calc out = out.take data.length ++ out.drop data.length :=
          (List.take_append_drop _ _).symm
    _ = data ++ [] := by rw [h1, h2]
    _ = data := List.append_nil _
  rw [hout] at hr
  exact ⟨s₁, s₂, hw, hr⟩

/-- Witness for C3 at a concrete wrapped state: capacity 4, head 3,
empty; the written 3 bytes wrap around the end of the storage. -/
theorem write_read_roundtrip_witness :
    WF ⟨4, 3, 0, [0, 0, 0, 0]⟩ ∧ 0 < 4 ∧ ([1, 2, 3] : List Nat).length ≤ 4 ∧
    (∃ s₁ s₂,
      (⟨4, 3, 0, [0, 0, 0, 0]⟩ : ByteStream).write [1, 2, 3] = some (3, s₁) ∧
      s₁.read [0, 0, 0] = some (3, [1, 2, 3], s₂)) :=
  ⟨by decide, by decide, by decide,
    write_read_roundtrip ⟨4, 3, 0, [0, 0, 0, 0]⟩ [1, 2, 3] [0, 0, 0]
      (by decide) (by decide) rfl (by decide) rfl⟩

/-- Claim C4 (confirmed): for every completed interleaving of writes and
reads on one fresh buffer in which the reads together consume exactly the
bytes accepted by the writes, the concatenation of read outputs equals the
concatenation of accepted write inputs, in order. -/
theorem fifo_order (cap : Nat) (ops : List Op) (ws rs : List Nat)
    (s' : ByteStream)
    (hrun : runOps (ByteStream.new cap) ops = some (ws, rs, s'))
    (hlen : rs.length = ws.length) : rs = ws := by
  have hWF : WF (ByteStream.new cap) :=
    ⟨by simp [ByteStream.new], Nat.zero_le _, fun h => h⟩
  obtain ⟨hWF', hc⟩ := runOps_conserves ops (ByteStream.new cap) ws rs s' hWF hrun
  have hcs : contents (ByteStream.new cap) = [] := rfl
  rw [hcs, List.nil_append] at hc
  have h2 : rs.length + (contents s').length = ws.length := by
    rw [← List.length_append, hc]
  have h3 : contents s' = [] := List.eq_nil_of_length_eq_zero (by omega)
  rw [h3, List.append_nil] at hc
  exact hc

/-- Witness for C4: a wrap-inducing interleaving on a capacity-4 buffer. -/
theorem fifo_order_witness :
    runOps (ByteStream.new 4)
        [Op.write [1, 2, 3], Op.read 2, Op.write [4, 5, 6], Op.read 4] =
      some ([1, 2, 3, 4, 5, 6], [1, 2, 3, 4, 5, 6], ⟨4, 2, 0, [5, 6, 3, 4]⟩) ∧
    ([1, 2, 3, 4, 5, 6] : List Nat).length =
      ([1, 2, 3, 4, 5, 6] : List Nat).length ∧
    ([1, 2, 3, 4, 5, 6] : List Nat) = [1, 2, 3, 4, 5, 6] :=
  ⟨by decide, rfl,
    fifo_order 4 [Op.write [1, 2, 3], Op.read 2, Op.write [4, 5, 6], Op.read 4]
      [1, 2, 3, 4, 5, 6] [1, 2, 3, 4, 5, 6] ⟨4, 2, 0, [5, 6, 3, 4]⟩
      (by decide) rfl⟩

/-- Claim C5, counterexample: reading 1 byte from an (empty) capacity-0
buffer does not return u = 0 bytes — it panics (remainder by zero). -/
theorem read_capacity_zero_counterexample :
    (ByteStream.new 0).read [0] = none := rfl

/-- Claim C5 (amended): on every well-formed buffer of POSITIVE capacity,
bytes_read = min(requested length, used), and a request of n > used bytes
returns exactly the used oldest bytes in FIFO order and empties the
buffer. -/
theorem read_underflow (s : ByteStream) (sink : List Nat)
    (hWF : WF s) (hpos : 0 < s.capacity) :
    ∃ out s', s.read sink = some (min sink.length s.used_capacity, out, s') ∧
      (s.used_capacity < sink.length →
        min sink.length s.used_capacity = s.used_capacity ∧
        out.take s.used_capacity = contents s ∧ s'.used_capacity = 0) := by
  obtain ⟨out, s', hr⟩ := read_total s sink hpos
  refine ⟨out, s', hr, fun hlt => ?_⟩
  have hmin : min sink.length s.used_capacity = s.used_capacity :=
    Nat.min_eq_right (by omega)
  obtain ⟨hWF', hrv, hcap', hbuf', hhd', hus', htake', hdrop', hcont'⟩ :=
    read_spec_wf s sink _ out s' hWF hr
  rw [hmin] at htake' hus'
  refine ⟨hmin, ?_, ?_⟩
  · rw [htake']
    have hl := contents_length s hWF
    exact List.take_of_length_le (by omega)
  · rw [hus']
    omega

/-- Witness for C5: buffer with 1 byte, request of 3. -/
theorem read_underflow_witness :
    WF ⟨2, 1, 1, [9, 7]⟩ ∧ 0 < 2 ∧
    (∃ out s',
      (⟨2, 1, 1, [9, 7]⟩ : ByteStream).read [0, 0, 0] = some (min 3 1, out, s') ∧
      (1 < 3 → min 3 1 = 1 ∧ out.take 1 = contents ⟨2, 1, 1, [9, 7]⟩ ∧
        s'.used_capacity = 0)) :=
  ⟨by decide, by decide,
    read_underflow ⟨2, 1, 1, [9, 7]⟩ [0, 0, 0] (by decide) (by decide)⟩

/-- Claim C6, counterexample: a capacity-0 buffer is constructible, but
even a zero-length write on it panics (the tail computation divides by
zero) instead of returning 0. -/
theorem capacity_zero_write_counterexample :
    (ByteStream.new 0).write [] = none := rfl

/-- Claim C6 (amended): on every well-formed buffer of POSITIVE capacity a
zero-length write returns 0 and mutates nothing, and a zero-length read
returns 0 bytes and mutates nothing; on a capacity-0 buffer every write
and every read panics. -/
theorem zero_length_requests (s : ByteStream) (hWF : WF s)
    (hpos : 0 < s.capacity) :
    s.write [] = some (0, s) ∧ s.read [] = some (0, [], s) := by
  have h0 : ¬ s.capacity = 0 := by omega
  constructor
  · simp [ByteStream.write, h0]
  · simp [ByteStream.read, h0, Nat.mod_eq_of_lt (hWF.2.2 hpos)]

/-- Witness for C6 on a concrete capacity-3 buffer. -/
theorem zero_length_requests_witness :
    WF ⟨3, 1, 2, [7, 8, 9]⟩ ∧ 0 < 3 ∧
    ((⟨3, 1, 2, [7, 8, 9]⟩ : ByteStream).write [] =
        some (0, ⟨3, 1, 2, [7, 8, 9]⟩) ∧
      (⟨3, 1, 2, [7, 8, 9]⟩ : ByteStream).read [] =
        some (0, [], ⟨3, 1, 2, [7, 8, 9]⟩)) :=
  ⟨by decide, by decide,
    zero_length_requests ⟨3, 1, 2, [7, 8, 9]⟩ (by decide) (by decide)⟩

/-- Claim C7 (confirmed): used ≤ capacity, and head < capacity whenever
capacity is positive, hold after construction and are preserved by every
successful write and read. -/
theorem new_and_ops_preserve_invariants :
    (∀ cap, SpecInv (ByteStream.new cap)) ∧
    (∀ s data w s₁, SpecInv s → ByteStream.write s data = some (w, s₁) →
      SpecInv s₁) ∧
    (∀ s sink r out s₂, SpecInv s → ByteStream.read s sink = some (r, out, s₂) →
      SpecInv s₂) := by
  refine ⟨fun cap => ⟨Nat.zero_le _, fun h => h⟩, ?_, ?_⟩
  · intro s data w s₁ hInv h
    obtain ⟨hw, hcap, hhd, hus⟩ := write_some_fields s data w s₁ h
    have h1 : w ≤ s.capacity - s.used_capacity := by
      rw [hw]; exact Nat.min_le_right _ _
    have h2 := hInv.1
    refine ⟨by omega, fun hpos => ?_⟩
    rw [hhd, hcap]
    exact hInv.2 (by omega)
  · intro s sink r out s₂ hInv h
    obtain ⟨hr, hcap, hbuf, hhd, hus⟩ := read_some_fields s sink r out s₂ h
    have hpos' : 0 < s.capacity := by
      by_contra hc
      rw [read_cap_zero s sink (by omega)] at h
      exact absurd h (by simp)
    have h2 := hInv.1
    refine ⟨by omega, fun _ => ?_⟩
    rw [hhd, hcap]
    exact Nat.mod_lt _ hpos'

/-- Witness for C7 at concrete states and operations. -/
theorem new_and_ops_preserve_invariants_witness :
    SpecInv (ByteStream.new 5) ∧ SpecInv (⟨4, 0, 4, [1, 2, 3, 4]⟩ : ByteStream) ∧
    SpecInv (⟨4, 1, 3, [1, 2, 3, 4]⟩ : ByteStream) :=
  ⟨new_and_ops_preserve_invariants.1 5,
    new_and_ops_preserve_invariants.2.1 ⟨4, 0, 3, [1, 2, 3, 0]⟩ [4] 1
      ⟨4, 0, 4, [1, 2, 3, 4]⟩ (by decide) (by decide),
    new_and_ops_preserve_invariants.2.2 ⟨4, 0, 4, [1, 2, 3, 4]⟩ [0] 1 [1]
      ⟨4, 1, 3, [1, 2, 3, 4]⟩ (by decide) (by decide)⟩

/-- Claim C8 (confirmed): a successful write increases used_capacity by
the returned count and leaves head_index and capacity unchanged; a
successful read decreases used_capacity by the returned count (which never
exceeds used_capacity), advances head_index by that count modulo capacity,
and leaves capacity unchanged. -/
theorem frame_effects (s s₁ s₂ : ByteStream) (data sink out : List Nat)
    (w r : Nat) :
    (s.write data = some (w, s₁) →
      s₁.used_capacity = s.used_capacity + w ∧ s₁.head_index = s.head_index ∧
      s₁.capacity = s.capacity) ∧
    (s.read sink = some (r, out, s₂) →
      s₂.used_capacity + r = s.used_capacity ∧ r ≤ s.used_capacity ∧
      s₂.head_index = (s.head_index + r) % s.capacity ∧
      s₂.capacity = s.capacity) := by
  constructor
  · intro h
    obtain ⟨hw, hcap, hhd, hus⟩ := write_some_fields s data w s₁ h
    exact ⟨hus, hhd, hcap⟩
  · intro h
    obtain ⟨hr, hcap, hbuf, hhd, hus⟩ := read_some_fields s sink r out s₂ h
    have hrle : r ≤ s.used_capacity := by
      rw [hr]; exact Nat.min_le_right _ _
    exact ⟨by omega, hrle, hhd, hcap⟩

/-- Witness for C8 at a concrete write and read. -/
theorem frame_effects_witness :
    ((4 : Nat) = 3 + 1 ∧ (0 : Nat) = 0 ∧ (4 : Nat) = 4) ∧
    ((2 : Nat) + 1 = 3 ∧ (1 : Nat) ≤ 3 ∧ (1 : Nat) = (0 + 1) % 4 ∧
      (4 : Nat) = 4) :=
  ⟨(frame_effects ⟨4, 0, 3, [1, 2, 3, 0]⟩ ⟨4, 0, 4, [1, 2, 3, 4]⟩
      ⟨4, 1, 2, [1, 2, 3, 0]⟩ [4] [0] [1] 1 1).1 (by decide),
    (frame_effects ⟨4, 0, 3, [1, 2, 3, 0]⟩ ⟨4, 0, 4, [1, 2, 3, 4]⟩
      ⟨4, 1, 2, [1, 2, 3, 0]⟩ [4] [0] [1] 1 1).2 (by decide)⟩

/-- Claim C9 (confirmed): read fills only the first bytes_read positions
of the caller-provided sink; every position from bytes_read on is left
unchanged. -/
theorem read_preserves_sink_tail (s s' : ByteStream) (sink out : List Nat)
    (r : Nat) (hWF : WF s) (h : s.read sink = some (r, out, s')) :
    out.drop r = sink.drop r := by
  obtain ⟨_, _, _, _, _, _, _, hdrop, _⟩ := read_spec_wf s sink r out s' hWF h
  exact hdrop

/-- Witness for C9: a wrapped read of 2 bytes into a 3-byte sink leaves
the third sink byte untouched. -/
theorem read_preserves_sink_tail_witness :
    WF ⟨4, 3, 2, [9, 0, 0, 7]⟩ ∧
    ([7, 9, 0] : List Nat).drop 2 = ([0, 0, 0] : List Nat).drop 2 :=
  ⟨by decide,
    read_preserves_sink_tail ⟨4, 3, 2, [9, 0, 0, 7]⟩ ⟨4, 1, 0, [9, 0, 0, 7]⟩
      [0, 0, 0] [7, 9, 0] 2 (by decide) (by decide)⟩

/-- Claim C10 (confirmed): flush always succeeds and leaves the entire
buffer state unchanged. -/
theorem flush_noop (s : ByteStream) : s.flush = some ((), s) := rfl
